import Mathlib

/-!
Shallow embedding of the Adler-checksum memory-copy module
(src/adler32memcpy.h, src/adler32memcpy.cc).

Machine 64-bit words are modelled as natural numbers; every arithmetic
update is taken modulo 2^64, exactly where the C code's uint64 additions
wrap.  Memory buffers are lists of words; an out-of-bounds array access
(undefined behaviour in C) is modelled by an Option-valued read or write
returning none, and the functions propagate that none.

Conventions for the top-level operations:
  - CalculateAdlerChecksum data64 size_in_bytes checksum
      returns none when the run performs an out-of-bounds access,
      some (false, checksum) when the size check fails (the C function
      returns false leaving the *checksum out-parameter untouched), and
      some (true, ret) when it returns true having stored ret.
  - AdlerMemcpyC dstmem64 srcmem64 size_in_bytes checksum additionally
      carries the final contents of the destination buffer.
-/

/-- Addition of two 64-bit machine words: wraps modulo 2^64. -/
def add64 (x y : Nat) : Nat := (x + y) % 2 ^ 64

/-- The AdlerChecksum struct of adler32memcpy.h: two 2-element arrays,
a = {a0, a1} initialized to {1, 1} and b = {b0, b1} initialized to {0, 0}.
We name the four lanes directly; the array reads of the C code are
modelled by laneA / laneB below. -/
structure AdlerChecksum where
  a0 : Nat
  a1 : Nat
  b0 : Nat
  b1 : Nat
deriving DecidableEq, Repr

/-- Default-initialized AdlerChecksum (the member initializers of the
struct): a = {1, 1}, b = {0, 0}. -/
def initState : AdlerChecksum := ⟨1, 1, 0, 0⟩

/-- Read of a[i] on the 2-element std::array a of AdlerChecksum; an index
past the end (i ≥ 2) is an out-of-bounds access, modelled as none. -/
def laneA (s : AdlerChecksum) (i : Nat) : Option Nat :=
  match i with
  | 0 => some s.a0
  | 1 => some s.a1
  | _ => none

/-- Read of b[i] on the 2-element std::array b of AdlerChecksum; an index
past the end (i ≥ 2) is an out-of-bounds access, modelled as none. -/
def laneB (s : AdlerChecksum) (i : Nat) : Option Nat :=
  match i with
  | 0 => some s.b0
  | 1 => some s.b1
  | _ => none

/-- Modelled from the spec: the member function AdlerChecksum::increment
is called by adler32memcpy.cc but its definition is not among the given
source files.  Following section 4.1 of the spec, increment(d0,d1,d2,d3)
performs, in order, a0 += d0; b0 += a0; a0 += d1; b0 += a0; a1 += d2;
b1 += a1; a1 += d3; b1 += a1, each addition wrapping modulo 2^64. -/
def increment (s : AdlerChecksum) (d0 d1 d2 d3 : Nat) : AdlerChecksum :=
  let a0x := add64 s.a0 d0
  let b0x := add64 s.b0 a0x
  let a0y := add64 a0x d1
  let b0y := add64 b0x a0y
  let a1x := add64 s.a1 d2
  let b1x := add64 s.b1 a1x
  let a1y := add64 a1x d3
  let b1y := add64 b1x a1y
  ⟨a0y, a1y, b0y, b1y⟩

/-- Hexadecimal digit characters, lowercase, as produced by the %x
formatting of snprintf. -/
def hexChar (n : Nat) : Char :=
  if n < 10 then Char.ofNat (48 + n) else Char.ofNat (87 + n)

/-- The k low hexadecimal digits of n, most significant first. -/
def hexDigits : Nat → Nat → List Char
  | 0, _ => []
  | k + 1, n => hexDigits k (n / 16) ++ [hexChar (n % 16)]

/-- A 64-bit word rendered by the %016llx conversion of snprintf:
exactly 16 lowercase hexadecimal digits, zero padded. -/
def hex16 (n : Nat) : String := String.mk (hexDigits 16 n)

/-- AdlerChecksum::ToHexString of adler32memcpy.cc: formats
"%016llx %016llx %016llx %016llx %016llx %016llx %016llx %016llx" with
arguments a[0], a[1], a[2], a[3], b[0], b[1], b[2], b[3].  The reads
a[2], a[3], b[2], b[3] index past the end of the 2-element arrays, so the
model returns none for them and the whole rendering is none. -/
def ToHexString (s : AdlerChecksum) : Option String := do
  let x0 ← laneA s 0
  let x1 ← laneA s 1
  let x2 ← laneA s 2
  let x3 ← laneA s 3
  let y0 ← laneB s 0
  let y1 ← laneB s 1
  let y2 ← laneB s 2
  let y3 ← laneB s 3
  pure (hex16 x0 ++ " " ++ hex16 x1 ++ " " ++ hex16 x2 ++ " " ++ hex16 x3
    ++ " " ++ hex16 y0 ++ " " ++ hex16 y1 ++ " " ++ hex16 y2 ++ " "
    ++ hex16 y3)

/-- A 64-bit read of data64[i]; none when i is outside the buffer
(an out-of-bounds access in C). -/
def readWord (buf : List Nat) (i : Nat) : Option Nat := buf[i]?

/-- A 64-bit store to dstmem64[i] (the __builtin_nontemporal_store of the
copy loop; the non-temporal hint has no functional content, the store
just writes the word); none when i is outside the buffer. -/
def writeWord (buf : List Nat) (i : Nat) (v : Nat) : Option (List Nat) :=
  if i < buf.length then some (buf.set i v) else none

set_option maxHeartbeats 1000000 in
/-- The loop of CalculateAdlerChecksum:
for (i = 0; i < count; i += 4) ret.increment({data64[i], data64[i+1],
data64[i+2], data64[i+3]}).  Returns none when a read is out of bounds. -/
def calcLoop (src : List Nat) (count i : Nat) (st : AdlerChecksum) :
    Option AdlerChecksum :=
  if h : i < count then do
    let d0 ← readWord src i
    let d1 ← readWord src (i + 1)
    let d2 ← readWord src (i + 2)
    let d3 ← readWord src (i + 3)
    calcLoop src count (i + 4) (increment st d0 d1 d2 d3)
  else
    some st
termination_by count - i
decreasing_by omega

/-- Modelled from the spec: extractData<8>(srcmem64 + i) is called by
adler32memcpy.cc but its definition is not among the given source files.
Following section 4.3 of the spec, it reads the 8 consecutive 64-bit
words starting at the given offset; none when a read is out of bounds. -/
def extractData8 (src : List Nat) (i : Nat) :
    Option (Nat × Nat × Nat × Nat × Nat × Nat × Nat × Nat) := do
  let w0 ← readWord src i
  let w1 ← readWord src (i + 1)
  let w2 ← readWord src (i + 2)
  let w3 ← readWord src (i + 3)
  let w4 ← readWord src (i + 4)
  let w5 ← readWord src (i + 5)
  let w6 ← readWord src (i + 6)
  let w7 ← readWord src (i + 7)
  pure (w0, w1, w2, w3, w4, w5, w6, w7)

/-- The inner store loop of AdlerMemcpyC:
for (j = 0; j < 8; ++j) store buffer[j] to dstmem64 + i + j; the words to
store are passed as a list.  None when a store is out of bounds. -/
def storeWords (dst : List Nat) (i : Nat) : List Nat → Option (List Nat)
  | [] => some dst
  | v :: vs => do
    let d ← writeWord dst i v
    storeWords d (i + 1) vs

set_option maxHeartbeats 1000000 in
/-- The loop of AdlerMemcpyC:
for (i = 0; i < count; i += 8) reads the 8 words srcmem64[i..i+7] via
extractData8, folds the first 4 and then the last 4 into the checksum,
and stores the 8 words to dstmem64[i..i+7].  Returns none when a read or
a store is out of bounds. -/
def copyLoop (src : List Nat) (count i : Nat) (dst : List Nat)
    (st : AdlerChecksum) : Option (AdlerChecksum × List Nat) :=
  if h : i < count then do
    let (w0, w1, w2, w3, w4, w5, w6, w7) ← extractData8 src i
    let st2 := increment (increment st w0 w1 w2 w3) w4 w5 w6 w7
    let d2 ← storeWords dst i [w0, w1, w2, w3, w4, w5, w6, w7]
    copyLoop src count (i + 8) d2 st2
  else
    some (st, dst)
termination_by count - i
decreasing_by omega

/-- CalculateAdlerChecksum of adler32memcpy.cc.  count = size_in_bytes / 8;
if count > 1 << 19 return false (checksum out-parameter untouched);
otherwise run the loop from a freshly value-initialized AdlerChecksum and
store the result through the checksum pointer, returning true. -/
def CalculateAdlerChecksum (data64 : List Nat) (size_in_bytes : Nat)
    (checksum : AdlerChecksum) : Option (Bool × AdlerChecksum) :=
  let count := size_in_bytes / 8
  if count > 2 ^ 19 then
    some (false, checksum)
  else
    match calcLoop data64 count 0 initState with
    | none => none
    | some ret => some (true, ret)

/-- AdlerMemcpyC of adler32memcpy.cc.  count = size_in_bytes / 8; if
count > 1 << 19 return false with neither the checksum out-parameter nor
the destination buffer written; otherwise run the copy loop from a
freshly value-initialized AdlerChecksum, store the result through the
checksum pointer and return true.  The result carries the returned flag,
the final value of the checksum out-parameter and the final destination
contents. -/
def AdlerMemcpyC (dstmem64 srcmem64 : List Nat) (size_in_bytes : Nat)
    (checksum : AdlerChecksum) : Option (Bool × AdlerChecksum × List Nat) :=
  let count := size_in_bytes / 8
  if count > 2 ^ 19 then
    some (false, checksum, dstmem64)
  else
    match copyLoop srcmem64 count 0 dstmem64 initState with
    | none => none
    | some (ret, dst2) => some (true, ret, dst2)

/-- AdlerMemcpyWarmC of adler32memcpy.cc: delegates to AdlerMemcpyC. -/
def AdlerMemcpyWarmC (dstmem64 srcmem64 : List Nat) (size_in_bytes : Nat)
    (checksum : AdlerChecksum) : Option (Bool × AdlerChecksum × List Nat) :=
  AdlerMemcpyC dstmem64 srcmem64 size_in_bytes checksum

/-- AdlerMemcpyAsm of adler32memcpy.cc: delegates to AdlerMemcpyC. -/
def AdlerMemcpyAsm (dstmem64 srcmem64 : List Nat) (size_in_bytes : Nat)
    (checksum : AdlerChecksum) : Option (Bool × AdlerChecksum × List Nat) :=
  AdlerMemcpyC dstmem64 srcmem64 size_in_bytes checksum

/-! Unfolding lemmas for the two loops. -/

lemma calcLoop_stop {src : List Nat} {count i : Nat} {st : AdlerChecksum}
    (h : ¬ i < count) : calcLoop src count i st = some st := by
  rw [calcLoop]
  simp [h]

lemma calcLoop_step {src : List Nat} {count i : Nat} {st : AdlerChecksum}
    (h : i < count) :
    calcLoop src count i st =
      (readWord src i).bind fun d0 =>
      (readWord src (i + 1)).bind fun d1 =>
      (readWord src (i + 2)).bind fun d2 =>
      (readWord src (i + 3)).bind fun d3 =>
      calcLoop src count (i + 4) (increment st d0 d1 d2 d3) := by
  rw [calcLoop]
  simp [h]

lemma copyLoop_stop {src : List Nat} {count i : Nat} {dst : List Nat}
    {st : AdlerChecksum} (h : ¬ i < count) :
    copyLoop src count i dst st = some (st, dst) := by
  rw [copyLoop]
  simp [h]

lemma copyLoop_step {src : List Nat} {count i : Nat} {dst : List Nat}
    {st : AdlerChecksum} (h : i < count) :
    copyLoop src count i dst st =
      (extractData8 src i).bind fun w =>
      match w with
      | (w0, w1, w2, w3, w4, w5, w6, w7) =>
        (storeWords dst i [w0, w1, w2, w3, w4, w5, w6, w7]).bind fun d2 =>
        copyLoop src count (i + 8) d2
          (increment (increment st w0 w1 w2 w3) w4 w5 w6 w7) := by
  rw [copyLoop]
  simp only [dif_pos h]
  rfl

/-- Characterization of the inner store loop: when all the stores land
inside the destination, it succeeds, preserves the length, writes the
given words at offsets i, i+1, ... and leaves every other cell alone. -/
lemma storeWords_sound :
    ∀ (vs dst : List Nat) (i : Nat), i + vs.length ≤ dst.length →
      ∃ d, storeWords dst i vs = some d ∧ d.length = dst.length ∧
        ∀ k, d[k]? =
          if i ≤ k ∧ k < i + vs.length then vs[k - i]? else dst[k]? := by
  intro vs
  induction vs with
  | nil =>
    intro dst i _
    refine ⟨dst, rfl, rfl, fun k => ?_⟩
    simp only [List.length_nil, Nat.add_zero]
    rw [if_neg (by omega)]
  | cons v vs ih =>
    intro dst i hlen
    simp only [List.length_cons] at hlen
    have hi : i < dst.length := by omega
    have hlen2 : (i + 1) + vs.length ≤ (dst.set i v).length := by
      rw [List.length_set]
      omega
    obtain ⟨d, hd, hdlen, hdget⟩ := ih (dst.set i v) (i + 1) hlen2
    refine ⟨d, ?_, ?_, ?_⟩
    · simp [storeWords, writeWord, hi, hd]
    · rw [hdlen, List.length_set]
    · intro k
      rw [hdget k]
      simp only [List.length_cons]
      by_cases hk1 : k = i
      · subst hk1
        rw [if_neg (by omega), List.getElem?_set_eq_of_lt v hi,
          if_pos (by omega), Nat.sub_self, List.getElem?_cons_zero]
      · by_cases hk2 : i + 1 ≤ k ∧ k < i + 1 + vs.length
        · have hki : k - i = (k - (i + 1)) + 1 := by omega
          rw [if_pos hk2, if_pos (by omega), hki, List.getElem?_cons_succ]
        · rw [if_neg hk2, List.getElem?_set_ne (by omega), if_neg (by omega)]

/-- Totality of the checksum loop: when the word count is reachable from
i in steps of 4 and the buffer holds count words, every read of the loop
is in bounds and the loop produces a final state. -/
lemma calcLoop_total :
    ∀ (m : Nat) (src : List Nat) (count i : Nat) (st : AdlerChecksum),
      i + 4 * m = count → count ≤ src.length →
      ∃ c, calcLoop src count i st = some c := by
  intro m
  induction m with
  | zero =>
    intro src count i st hm _
    exact ⟨st, calcLoop_stop (by omega)⟩
  | succ m ih =>
    intro src count i st hm hlen
    have h : i < count := by omega
    have h0 : i < src.length := by omega
    have h1 : i + 1 < src.length := by omega
    have h2 : i + 2 < src.length := by omega
    have h3 : i + 3 < src.length := by omega
    rw [calcLoop_step h]
    simp only [readWord, List.getElem?_eq_getElem h0,
      List.getElem?_eq_getElem h1, List.getElem?_eq_getElem h2,
      List.getElem?_eq_getElem h3, Option.some_bind]
    exact ih src count (i + 4) _ (by omega) hlen

/-- Master lemma for the copy loop: when the word count is reachable from
i in steps of 8 and both buffers hold at least count words, the copy loop
succeeds, computes exactly the state the checksum loop computes over the
same source range, preserves the destination length, and the final
destination agrees with the source on [i, count) and with the original
destination elsewhere. -/
lemma copyLoop_calcLoop :
    ∀ (m : Nat) (src : List Nat) (count i : Nat) (dst : List Nat)
      (st : AdlerChecksum),
      i + 8 * m = count → count ≤ src.length → count ≤ dst.length →
      ∃ c d2, copyLoop src count i dst st = some (c, d2) ∧
        calcLoop src count i st = some c ∧
        d2.length = dst.length ∧
        ∀ k, d2[k]? = if i ≤ k ∧ k < count then src[k]? else dst[k]? := by
  intro m
  induction m with
  | zero =>
    intro src count i dst st hm hs hd
    refine ⟨st, dst, copyLoop_stop (by omega), calcLoop_stop (by omega),
      rfl, fun k => ?_⟩
    rw [if_neg (by omega)]
  | succ m ih =>
    intro src count i dst st hm hs hd
    have h : i < count := by omega
    have h4 : i + 4 < count := by omega
    have h0 : i < src.length := by omega
    have h1 : i + 1 < src.length := by omega
    have h2 : i + 2 < src.length := by omega
    have h3 : i + 3 < src.length := by omega
    have h5 : i + 4 < src.length := by omega
    have h6 : i + 5 < src.length := by omega
    have h7 : i + 6 < src.length := by omega
    have h8 : i + 7 < src.length := by omega
    obtain ⟨w0, hw0⟩ : ∃ w, src[i]? = some w :=
      ⟨_, List.getElem?_eq_getElem h0⟩
    obtain ⟨w1, hw1⟩ : ∃ w, src[i + 1]? = some w :=
      ⟨_, List.getElem?_eq_getElem h1⟩
    obtain ⟨w2, hw2⟩ : ∃ w, src[i + 2]? = some w :=
      ⟨_, List.getElem?_eq_getElem h2⟩
    obtain ⟨w3, hw3⟩ : ∃ w, src[i + 3]? = some w :=
      ⟨_, List.getElem?_eq_getElem h3⟩
    obtain ⟨w4, hw4⟩ : ∃ w, src[i + 4]? = some w :=
      ⟨_, List.getElem?_eq_getElem h5⟩
    obtain ⟨w5, hw5⟩ : ∃ w, src[i + 5]? = some w :=
      ⟨_, List.getElem?_eq_getElem h6⟩
    obtain ⟨w6, hw6⟩ : ∃ w, src[i + 6]? = some w :=
      ⟨_, List.getElem?_eq_getElem h7⟩
    obtain ⟨w7, hw7⟩ : ∃ w, src[i + 7]? = some w :=
      ⟨_, List.getElem?_eq_getElem h8⟩
    have hex : extractData8 src i = some (w0, w1, w2, w3, w4, w5, w6, w7) := by
      simp [extractData8, readWord, hw0, hw1, hw2, hw3, hw4, hw5, hw6, hw7]
    obtain ⟨d1, hd1, hd1len, hd1get⟩ :=
      storeWords_sound [w0, w1, w2, w3, w4, w5, w6, w7] dst i
        (by simp only [List.length_cons, List.length_nil]; omega)
    simp only [List.length_cons, List.length_nil] at hd1get
    obtain ⟨c, d2, hcopy, hcalc, hlen2, hget2⟩ :=
      ih src count (i + 8) d1
        (increment (increment st w0 w1 w2 w3) w4 w5 w6 w7)
        (by omega) hs (by rw [hd1len]; omega)
    have hw : ∀ j, j < 8 →
        [w0, w1, w2, w3, w4, w5, w6, w7][j]? = src[i + j]? := by
      intro j hj
      interval_cases j <;>
        simp [hw0, hw1, hw2, hw3, hw4, hw5, hw6, hw7]
    refine ⟨c, d2, ?_, ?_, ?_, ?_⟩
    · rw [copyLoop_step h, hex]
      simp only [Option.some_bind]
      rw [hd1]
      simp only [Option.some_bind]
      exact hcopy
    · have e5 : i + 4 + 1 = i + 5 := by omega
      have e6 : i + 4 + 2 = i + 6 := by omega
      have e7 : i + 4 + 3 = i + 7 := by omega
      have e8 : i + 4 + 4 = i + 8 := by omega
      rw [calcLoop_step h]
      simp only [readWord, hw0, hw1, hw2, hw3, Option.some_bind]
      rw [calcLoop_step h4]
      simp only [readWord, e5, e6, e7, e8, hw4, hw5, hw6, hw7,
        Option.some_bind]
      exact hcalc
    · rw [hlen2, hd1len]
    · intro k
      rw [hget2 k]
      by_cases hk : i ≤ k ∧ k < count
      · rw [if_pos hk]
        by_cases hk8 : i + 8 ≤ k
        · rw [if_pos ⟨hk8, hk.2⟩]
        · rw [if_neg (by omega), hd1get k, if_pos (by omega)]
          have hjw := hw (k - i) (by omega)
          rw [show i + (k - i) = k by omega] at hjw
          exact hjw
      · rw [if_neg hk, if_neg (by omega), hd1get k, if_neg (by omega)]

/-- Evaluation of the checksum loop on an all-zero buffer: the a-lanes
stay at 1 and each b-lane grows by 2 per 4-word group (no wrap while the
totals stay below 2^64). -/
lemma calcLoop_zero :
    ∀ (m n i x y : Nat), i + 4 * m = n → 2 * m + x < 2 ^ 64 →
      2 * m + y < 2 ^ 64 →
      calcLoop (List.replicate n 0) n i ⟨1, 1, x, y⟩ =
        some ⟨1, 1, x + 2 * m, y + 2 * m⟩ := by
  intro m
  induction m with
  | zero =>
    intro n i x y hm _ _
    rw [calcLoop_stop (by omega)]
    norm_num
  | succ m ih =>
    intro n i x y hm hx hy
    have h : i < n := by omega
    have c1 : i + 1 < n := by omega
    have c2 : i + 2 < n := by omega
    have c3 : i + 3 < n := by omega
    have hinc : increment ⟨1, 1, x, y⟩ 0 0 0 0 = ⟨1, 1, x + 2, y + 2⟩ := by
      simp only [increment, add64, AdlerChecksum.mk.injEq]
      refine ⟨by omega, by omega, by omega, by omega⟩
    rw [calcLoop_step h]
    simp only [readWord, List.getElem?_replicate, if_pos h, if_pos c1,
      if_pos c2, if_pos c3, Option.some_bind]
    rw [hinc, ih n (i + 4) (x + 2) (y + 2) (by omega) (by omega) (by omega)]
    have ex : x + 2 + 2 * m = x + 2 * (m + 1) := by omega
    have ey : y + 2 + 2 * m = y + 2 * (m + 1) := by omega
    rw [ex, ey]

/-- Claim C1: increment(d0,d1,d2,d3) performs exactly, in order,
a0 += d0, b0 += a0, a0 += d1, b0 += a0, a1 += d2, b1 += a1, a1 += d3,
b1 += a1 (each modulo 2^64), from the initial state a0 = a1 = 1,
b0 = b1 = 0; and CalculateAdlerChecksum over the single group [2,3,4,5]
(32 bytes) succeeds with final state a0 = 6, a1 = 10, b0 = 9, b1 = 15. -/
theorem claim_C1_increment_and_scenario :
    (∀ (s : AdlerChecksum) (d0 d1 d2 d3 : Nat),
      increment s d0 d1 d2 d3 =
        ⟨add64 (add64 s.a0 d0) d1,
         add64 (add64 s.a1 d2) d3,
         add64 (add64 s.b0 (add64 s.a0 d0)) (add64 (add64 s.a0 d0) d1),
         add64 (add64 s.b1 (add64 s.a1 d2)) (add64 (add64 s.a1 d2) d3)⟩) ∧
    initState = ⟨1, 1, 0, 0⟩ ∧
    CalculateAdlerChecksum [2, 3, 4, 5] 32 initState =
      some (true, ⟨6, 10, 9, 15⟩) := by
  refine ⟨fun s d0 d1 d2 d3 => rfl, rfl, ?_⟩
  simp only [CalculateAdlerChecksum]
  rw [show (32 : Nat) / 8 = 4 by norm_num, if_neg (by norm_num),
    calcLoop_step (by norm_num)]
  simp only [calcLoop_stop (show ¬ (0 + 4 : Nat) < 4 by norm_num)]
  decide

/-- Claim C7: the claim says ToHexString renders exactly the four lanes
a0 a1 b0 b1 that exist in the state; the code instead formats eight
fields, reading a[2], a[3], b[2], b[3] past the end of the two 2-element
arrays.  Evaluating the code at any state (the failing input): the
serialization performs the out-of-bounds reads, so the model yields none
for every state. -/
theorem claim_C7_to_hex_string_oob :
    (∀ s : AdlerChecksum, ToHexString s = none) ∧
    laneA initState 2 = none ∧ laneA initState 3 = none ∧
    laneB initState 2 = none ∧ laneB initState 3 = none :=
  ⟨fun _ => rfl, rfl, rfl, rfl, rfl⟩

/-- Claim C8: the warm variant and the architecture-accelerated variant
of the checksummed copy agree with the baseline on every input: same
success flag, same checksum state and same final destination contents
(they delegate to AdlerMemcpyC). -/
theorem claim_C8_variants_identical :
    ∀ (dst src : List Nat) (sz : Nat) (cs : AdlerChecksum),
      AdlerMemcpyWarmC dst src sz cs = AdlerMemcpyC dst src sz cs ∧
      AdlerMemcpyAsm dst src sz cs = AdlerMemcpyC dst src sz cs :=
  fun _ _ _ _ => ⟨rfl, rfl⟩

/-- Claim C9: for size_in_bytes < 8 the word count is 0, so both
CalculateAdlerChecksum and AdlerMemcpyC succeed with the freshly
initialized state a0 = a1 = 1, b0 = b1 = 0, and the destination buffer is
not written. -/
theorem claim_C9_small_sizes :
    ∀ (sz : Nat), sz < 8 →
      ∀ (src dst : List Nat) (cs : AdlerChecksum),
        CalculateAdlerChecksum src sz cs = some (true, initState) ∧
        AdlerMemcpyC dst src sz cs = some (true, initState, dst) := by
  intro sz hsz src dst cs
  have hc : sz / 8 = 0 := by omega
  constructor
  · simp only [CalculateAdlerChecksum, hc]
    rw [if_neg (by norm_num), calcLoop_stop (by norm_num)]
  · simp only [AdlerMemcpyC, hc]
    rw [if_neg (by norm_num), copyLoop_stop (by norm_num)]

/-- Witness for claim C9 at size_in_bytes = 0. -/
theorem claim_C9_small_sizes_witness :
    (0 : Nat) < 8 ∧
      CalculateAdlerChecksum [] 0 initState = some (true, initState) ∧
      AdlerMemcpyC [] [] 0 initState = some (true, initState, []) :=
  ⟨by norm_num, (claim_C9_small_sizes 0 (by norm_num) [] [] initState).1,
    (claim_C9_small_sizes 0 (by norm_num) [] [] initState).2⟩

/-- Claim C4 as amended: the size check of both CalculateAdlerChecksum
and AdlerMemcpyC rejects exactly the requests whose 64-bit word count is
strictly greater than 2^19 (returning false with the checksum
out-parameter, and for the copy also the destination, untouched); a call
returns true only if the word count is at most 2^19. -/
theorem claim_C4_amended_size_check :
    (∀ (src : List Nat) (sz : Nat) (cs : AdlerChecksum), 2 ^ 19 < sz / 8 →
      CalculateAdlerChecksum src sz cs = some (false, cs)) ∧
    (∀ (dst src : List Nat) (sz : Nat) (cs : AdlerChecksum),
      2 ^ 19 < sz / 8 →
      AdlerMemcpyC dst src sz cs = some (false, cs, dst)) ∧
    (∀ (src : List Nat) (sz : Nat) (cs c : AdlerChecksum),
      CalculateAdlerChecksum src sz cs = some (true, c) → sz / 8 ≤ 2 ^ 19) ∧
    (∀ (dst src : List Nat) (sz : Nat) (cs c : AdlerChecksum) (d2 : List Nat),
      AdlerMemcpyC dst src sz cs = some (true, c, d2) → sz / 8 ≤ 2 ^ 19) := by
  refine ⟨?_, ?_, ?_, ?_⟩
  · intro src sz cs h
    simp only [CalculateAdlerChecksum]
    rw [if_pos h]
  · intro dst src sz cs h
    simp only [AdlerMemcpyC]
    rw [if_pos h]
  · intro src sz cs c heq
    by_contra hgt
    rw [Nat.not_le] at hgt
    simp only [CalculateAdlerChecksum, if_pos hgt] at heq
    simp at heq
  · intro dst src sz cs c d2 heq
    by_contra hgt
    rw [Nat.not_le] at hgt
    simp only [AdlerMemcpyC, if_pos hgt] at heq
    simp at heq

/-- Witness for the amended claim C4: word count 2^19 + 1 is rejected. -/
theorem claim_C4_amended_witness :
    2 ^ 19 < (2 ^ 22 + 8 : Nat) / 8 ∧
      CalculateAdlerChecksum [] (2 ^ 22 + 8) initState =
        some (false, initState) :=
  ⟨by norm_num,
    claim_C4_amended_size_check.1 [] (2 ^ 22 + 8) initState (by norm_num)⟩

/-- Counterexample to claim C4 as stated: a request whose word count is
exactly 2^19 (2^22 bytes, not strictly less than 2^19 words) is accepted
and succeeds, here on an all-zero buffer of 2^19 words. -/
theorem claim_C4_counterexample :
    CalculateAdlerChecksum (List.replicate (2 ^ 19) 0) (2 ^ 22) initState =
      some (true, ⟨1, 1, 2 ^ 18, 2 ^ 18⟩) ∧ (2 ^ 22 : Nat) / 8 = 2 ^ 19 := by
  constructor
  · have h := calcLoop_zero (2 ^ 17) (2 ^ 19) 0 0 0 (by norm_num)
      (by norm_num) (by norm_num)
    simp only [CalculateAdlerChecksum, initState]
    rw [show (2 ^ 22 : Nat) / 8 = 2 ^ 19 by norm_num, if_neg (by norm_num),
      h]
    norm_num
  · norm_num

/-- Claim C5: a request of exactly 2^19 words (2^22 bytes) succeeds for
both operations, while a request of 2^19 + 1 words (2^22 + 8 bytes)
fails, and on that failure the checksum output and the destination
buffer are returned completely unchanged. -/
theorem claim_C5_boundary :
    ∀ (src dst : List Nat) (cs : AdlerChecksum),
      2 ^ 19 ≤ src.length → 2 ^ 19 ≤ dst.length →
      (∃ c, CalculateAdlerChecksum src (2 ^ 22) cs = some (true, c)) ∧
      (∃ c d2, AdlerMemcpyC dst src (2 ^ 22) cs = some (true, c, d2)) ∧
      CalculateAdlerChecksum src (2 ^ 22 + 8) cs = some (false, cs) ∧
      AdlerMemcpyC dst src (2 ^ 22 + 8) cs = some (false, cs, dst) := by
  intro src dst cs hs hd
  have e : (2 ^ 22 : Nat) / 8 = 2 ^ 19 := by norm_num
  have e1 : (2 ^ 22 + 8 : Nat) / 8 = 2 ^ 19 + 1 := by norm_num
  refine ⟨?_, ?_, ?_, ?_⟩
  · obtain ⟨c, hc⟩ := calcLoop_total (2 ^ 17) src (2 ^ 19) 0 initState
      (by norm_num) (by omega)
    refine ⟨c, ?_⟩
    simp only [CalculateAdlerChecksum]
    rw [e, if_neg (by norm_num), hc]
  · obtain ⟨c, d2, hcopy, _, _, _⟩ := copyLoop_calcLoop (2 ^ 16) src
      (2 ^ 19) 0 dst initState (by norm_num) (by omega) (by omega)
    refine ⟨c, d2, ?_⟩
    simp only [AdlerMemcpyC]
    rw [e, if_neg (by norm_num), hcopy]
  · simp only [CalculateAdlerChecksum]
    rw [e1, if_pos (by norm_num)]
  · simp only [AdlerMemcpyC]
    rw [e1, if_pos (by norm_num)]

/-- Witness for claim C5 on concrete all-zero buffers of 2^19 words. -/
theorem claim_C5_boundary_witness :
    2 ^ 19 ≤ (List.replicate (2 ^ 19) (0 : Nat)).length ∧
    ((∃ c, CalculateAdlerChecksum (List.replicate (2 ^ 19) (0 : Nat))
        (2 ^ 22) initState = some (true, c)) ∧
      (∃ c d2, AdlerMemcpyC (List.replicate (2 ^ 19) (0 : Nat))
        (List.replicate (2 ^ 19) (0 : Nat)) (2 ^ 22) initState =
          some (true, c, d2)) ∧
      CalculateAdlerChecksum (List.replicate (2 ^ 19) (0 : Nat))
        (2 ^ 22 + 8) initState = some (false, initState) ∧
      AdlerMemcpyC (List.replicate (2 ^ 19) (0 : Nat))
        (List.replicate (2 ^ 19) (0 : Nat)) (2 ^ 22 + 8) initState =
          some (false, initState, List.replicate (2 ^ 19) (0 : Nat))) :=
  ⟨by rw [List.length_replicate], claim_C5_boundary
    (List.replicate (2 ^ 19) 0) (List.replicate (2 ^ 19) 0) initState
    (by rw [List.length_replicate]) (by rw [List.length_replicate])⟩

/-- Claim C6: the claim says no lane ever wraps for accepted inputs even
when all words are 2^64 - 1; the code (whose comment block asserts the
size bound prevents overflow) does wrap.  Failing input: 8 words of
value 2^64 - 1 (64 bytes, word count 8, well inside the accepted bound):
after the first increment the a0 lane is 2^64 - 1, after the second it is
2^64 - 3, strictly smaller, so the lane wrapped around 2^64. -/
theorem claim_C6_lane_wraps :
    CalculateAdlerChecksum (List.replicate 8 (2 ^ 64 - 1)) 64 initState =
      some (true, ⟨2 ^ 64 - 3, 2 ^ 64 - 3, 2 ^ 64 - 6, 2 ^ 64 - 6⟩) ∧
    increment initState (2 ^ 64 - 1) (2 ^ 64 - 1) (2 ^ 64 - 1) (2 ^ 64 - 1) =
      ⟨2 ^ 64 - 1, 2 ^ 64 - 1, 2 ^ 64 - 1, 2 ^ 64 - 1⟩ ∧
    increment ⟨2 ^ 64 - 1, 2 ^ 64 - 1, 2 ^ 64 - 1, 2 ^ 64 - 1⟩
        (2 ^ 64 - 1) (2 ^ 64 - 1) (2 ^ 64 - 1) (2 ^ 64 - 1) =
      ⟨2 ^ 64 - 3, 2 ^ 64 - 3, 2 ^ 64 - 6, 2 ^ 64 - 6⟩ ∧
    (2 ^ 64 - 3 : Nat) < 2 ^ 64 - 1 ∧ (64 : Nat) / 8 ≤ 2 ^ 19 := by
  refine ⟨?_, by decide, by decide, by norm_num, by norm_num⟩
  simp only [CalculateAdlerChecksum]
  rw [show (64 : Nat) / 8 = 8 by norm_num, if_neg (by norm_num),
    calcLoop_step (by norm_num)]
  simp only [calcLoop_step (show (0 + 4 : Nat) < 8 by norm_num)]
  simp only [calcLoop_stop (show ¬ (0 + 4 + 4 : Nat) < 8 by norm_num)]
  decide

/-- Claim C2: for every source whose word count is a multiple of 8 and
within the size bound (and buffers large enough for the run to be
defined), CalculateAdlerChecksum over the source returns exactly the
checksum state that AdlerMemcpyC returns when copying that source into
any destination. -/
theorem claim_C2_checksum_copy_agree :
    ∀ (src dst : List Nat) (sz : Nat) (cs cs2 : AdlerChecksum),
      8 ∣ sz / 8 → sz / 8 ≤ 2 ^ 19 → sz / 8 ≤ src.length →
      sz / 8 ≤ dst.length →
      ∃ c d2, CalculateAdlerChecksum src sz cs = some (true, c) ∧
        AdlerMemcpyC dst src sz cs2 = some (true, c, d2) := by
  intro src dst sz cs cs2 hdvd hbound hs hd
  obtain ⟨m, hm⟩ := hdvd
  obtain ⟨c, d2, hcopy, hcalc, _, _⟩ :=
    copyLoop_calcLoop m src (sz / 8) 0 dst initState (by omega) hs hd
  refine ⟨c, d2, ?_, ?_⟩
  · simp only [CalculateAdlerChecksum]
    rw [if_neg (Nat.not_lt.mpr hbound), hcalc]
  · simp only [AdlerMemcpyC]
    rw [if_neg (Nat.not_lt.mpr hbound), hcopy]

/-- Witness for claim C2 on a concrete 8-word source. -/
theorem claim_C2_checksum_copy_agree_witness :
    ((8 : Nat) ∣ 64 / 8 ∧ (64 : Nat) / 8 ≤ 2 ^ 19 ∧
      (64 : Nat) / 8 ≤ ([1, 2, 3, 4, 5, 6, 7, 8] : List Nat).length ∧
      (64 : Nat) / 8 ≤ ([0, 0, 0, 0, 0, 0, 0, 0] : List Nat).length) ∧
    ∃ c d2,
      CalculateAdlerChecksum [1, 2, 3, 4, 5, 6, 7, 8] 64 initState =
        some (true, c) ∧
      AdlerMemcpyC [0, 0, 0, 0, 0, 0, 0, 0] [1, 2, 3, 4, 5, 6, 7, 8] 64
        initState = some (true, c, d2) :=
  ⟨⟨by decide, by decide, by decide, by decide⟩,
    claim_C2_checksum_copy_agree [1, 2, 3, 4, 5, 6, 7, 8]
      [0, 0, 0, 0, 0, 0, 0, 0] 64 initState initState (by decide)
      (by decide) (by decide) (by decide)⟩

/-- Claim C3: for every valid input (word count a multiple of 8, within
the size bound, buffers of exactly the requested word count; the model
has no aliasing, matching the non-overlap precondition), AdlerMemcpyC
succeeds and the final destination buffer equals the source buffer. -/
theorem claim_C3_copy_fidelity :
    ∀ (src dst : List Nat) (sz : Nat) (cs : AdlerChecksum),
      8 ∣ sz / 8 → sz / 8 ≤ 2 ^ 19 → src.length = sz / 8 →
      dst.length = sz / 8 →
      ∃ c, AdlerMemcpyC dst src sz cs = some (true, c, src) := by
  intro src dst sz cs hdvd hbound hs hd
  obtain ⟨m, hm⟩ := hdvd
  obtain ⟨c, d2, hcopy, _, hlen, hget⟩ :=
    copyLoop_calcLoop m src (sz / 8) 0 dst initState (by omega) (by omega)
      (by omega)
  have hd2 : d2 = src := by
    apply List.ext_getElem?
    intro k
    rw [hget k]
    by_cases hk : k < sz / 8
    · rw [if_pos ⟨Nat.zero_le k, hk⟩]
    · rw [if_neg (by omega), List.getElem?_eq_none (by omega),
        List.getElem?_eq_none (by omega)]
  refine ⟨c, ?_⟩
  simp only [AdlerMemcpyC]
  rw [if_neg (Nat.not_lt.mpr hbound), hcopy, hd2]

/-- Witness for claim C3 on a concrete 8-word source. -/
theorem claim_C3_copy_fidelity_witness :
    ((8 : Nat) ∣ 64 / 8 ∧ (64 : Nat) / 8 ≤ 2 ^ 19 ∧
      ([1, 2, 3, 4, 5, 6, 7, 8] : List Nat).length = 64 / 8 ∧
      ([0, 0, 0, 0, 0, 0, 0, 0] : List Nat).length = 64 / 8) ∧
    ∃ c, AdlerMemcpyC [0, 0, 0, 0, 0, 0, 0, 0] [1, 2, 3, 4, 5, 6, 7, 8] 64
      initState = some (true, c, [1, 2, 3, 4, 5, 6, 7, 8]) :=
  ⟨⟨by decide, by decide, by decide, by decide⟩,
    claim_C3_copy_fidelity [1, 2, 3, 4, 5, 6, 7, 8] [0, 0, 0, 0, 0, 0, 0, 0]
      64 initState (by decide) (by decide) (by decide) (by decide)⟩

/-- Claim C10: when the word count is a multiple of 4 (for the checksum)
or of 8 (for the copy) and the buffers hold exactly word-count words,
every read and every write of the loops lands inside the first
word-count words, so the out-of-bounds branch (modelled as none) is
never taken. -/
theorem claim_C10_in_bounds :
    ∀ (src dst : List Nat) (sz : Nat) (cs : AdlerChecksum),
      (4 ∣ sz / 8 → src.length = sz / 8 →
        CalculateAdlerChecksum src sz cs ≠ none) ∧
      (8 ∣ sz / 8 → src.length = sz / 8 → dst.length = sz / 8 →
        AdlerMemcpyC dst src sz cs ≠ none) := by
  intro src dst sz cs
  constructor
  · intro hdvd hs
    by_cases hbig : 2 ^ 19 < sz / 8
    · simp only [CalculateAdlerChecksum]
      rw [if_pos hbig]
      simp
    · obtain ⟨m, hm⟩ := hdvd
      obtain ⟨c, hc⟩ := calcLoop_total m src (sz / 8) 0 initState
        (by omega) (by omega)
      simp only [CalculateAdlerChecksum]
      rw [if_neg hbig, hc]
      simp
  · intro hdvd hs hd
    by_cases hbig : 2 ^ 19 < sz / 8
    · simp only [AdlerMemcpyC]
      rw [if_pos hbig]
      simp
    · obtain ⟨m, hm⟩ := hdvd
      obtain ⟨c, d2, hcopy, _, _, _⟩ :=
        copyLoop_calcLoop m src (sz / 8) 0 dst initState (by omega)
          (by omega) (by omega)
      simp only [AdlerMemcpyC]
      rw [if_neg hbig, hcopy]
      simp

/-- Witness for claim C10 on concrete 8-word buffers. -/
theorem claim_C10_in_bounds_witness :
    ((4 : Nat) ∣ 64 / 8 ∧ (8 : Nat) ∣ 64 / 8 ∧
      ([1, 2, 3, 4, 5, 6, 7, 8] : List Nat).length = 64 / 8 ∧
      ([0, 0, 0, 0, 0, 0, 0, 0] : List Nat).length = 64 / 8) ∧
    CalculateAdlerChecksum [1, 2, 3, 4, 5, 6, 7, 8] 64 initState ≠ none ∧
    AdlerMemcpyC [0, 0, 0, 0, 0, 0, 0, 0] [1, 2, 3, 4, 5, 6, 7, 8] 64
      initState ≠ none :=
  ⟨⟨by decide, by decide, by decide, by decide⟩,
    (claim_C10_in_bounds [1, 2, 3, 4, 5, 6, 7, 8] [0, 0, 0, 0, 0, 0, 0, 0]
      64 initState).1 (by decide) (by decide),
    (claim_C10_in_bounds [1, 2, 3, 4, 5, 6, 7, 8] [0, 0, 0, 0, 0, 0, 0, 0]
      64 initState).2 (by decide) (by decide) (by decide)⟩
